import Mathlib

/-!
Verification of PandoraPFA algorithm code: a shallow embedding of
`ForcedClusteringAlgorithm.cc` and `MipPhotonSeparationAlgorithm.cc` with
theorems about the invariants and contracts of those algorithms.

Floating-point values of the C++ code are modelled as exact rationals `ℚ`;
machine `unsigned int` pseudo-layers are modelled as `Nat` with the sentinel
`LAYER_MAX = 2^32 - 1` and wrap-around subtraction where the source subtracts.
Framework geometry routines (vector magnitudes, helix distances) are not part
of the repository sources; they enter the model as explicit parameters.
-/

namespace PandoraPFA

section RatReducible

attribute [local semireducible] Rat.add Rat.mul Rat.sub Rat.inv

/-- Status codes of the Pandora framework used by the embedded algorithms. -/
inductive StatusCode where
  | success
  | unchanged
  | failure
  | invalidParameter
  | notFound
  deriving DecidableEq, Repr

/-! ## Forced clustering: data model (`ForcedClusteringAlgorithm.cc`) -/

/-- A calo hit as used by `ForcedClusteringAlgorithm::Run`: identity (modelling
pointer identity), hadronic energy and isolation flag. -/
structure FCHit where
  hid : Nat
  hadronicEnergy : ℚ
  isIsolated : Bool
  deriving DecidableEq, Repr

/-- A track as used by `ForcedClusteringAlgorithm::Run`: identity and
energy at the distance of closest approach. -/
structure FCTrack where
  tid : Nat
  energyAtDca : ℚ
  deriving DecidableEq, Repr

/-- The `TrackDistanceInfo` tuple built in the record-collection loop of
`ForcedClusteringAlgorithm::Run`: hit, seeded cluster (identified with its
track id), track DCA energy, and helix-distance magnitude. -/
structure TrackDistanceInfo where
  hit : FCHit
  trackId : Nat
  trackEnergy : ℚ
  distanceToTrack : ℚ
  deriving DecidableEq, Repr

/-- Configuration flags read by `ForcedClusteringAlgorithm::ReadSettings`. -/
structure FCConfig where
  shouldRunStandardClusteringAlgorithm : Bool
  shouldClusterIsolatedHits : Bool
  shouldAssociateIsolatedHits : Bool
  deriving DecidableEq, Repr

/-- The availability-and-isolation filter applied to hits both when collecting
distance records and when collecting remnant hits:
`IsCaloHitAvailable(hit) && (m_shouldClusterIsolatedHits || !hit->IsIsolated())`. -/
def fcHitEligible (cfg : FCConfig) (avail : Nat → Bool) (h : FCHit) : Bool :=
  avail h.hid && (cfg.shouldClusterIsolatedHits || !h.isIsolated)

/-- Distance records produced for one track's new cluster: one record per
eligible hit, carrying the helix-distance magnitude `helixDist`.
`helixDist` models the framework call
`pHelix->GetDistanceToPoint(hitPosition, helixSeparation)` followed by
`helixSeparation.GetMagnitude()`, which is framework code outside this
repository's algorithm sources; it enters the model as a parameter. -/
def fcRecordsForTrack (helixDist : Nat → Nat → ℚ) (cfg : FCConfig)
    (avail : Nat → Bool) (hits : List FCHit) (t : FCTrack) : List TrackDistanceInfo :=
  (hits.filter (fcHitEligible cfg avail)).map
    (fun h => ⟨h, t.tid, t.energyAtDca, helixDist t.tid h.hid⟩)

/-- All distance records, in input encounter order (outer loop over tracks,
inner loop over the input calo hit list). -/
def fcRecords (helixDist : Nat → Nat → ℚ) (cfg : FCConfig) (avail : Nat → Bool)
    (tracks : List FCTrack) (hits : List FCHit) : List TrackDistanceInfo :=
  (tracks.map (fcRecordsForTrack helixDist cfg avail hits)).flatten

/-- State of the greedy assignment walk: hit availability flags plus the
assignments made so far, most recent first (pair of cluster/track id and hit). -/
structure FCState where
  avail : Nat → Bool
  assigned : List (Nat × FCHit)

/-- The ordered hit members of the cluster seeded by track `tid`, most recently
added first. -/
def fcMembers (st : FCState) (tid : Nat) : List FCHit :=
  (st.assigned.filter (fun p => p.1 == tid)).map Prod.snd

/-- The cluster's hadronic energy: sum of its hits' hadronic energies, as
maintained by the framework's `Cluster::GetHadronicEnergy`. -/
def fcClusterEnergy (st : FCState) (tid : Nat) : ℚ :=
  ((fcMembers st tid).map FCHit.hadronicEnergy).sum

/-- One step of the assignment walk over a sorted `TrackDistanceInfo` record:
`if ((pCluster->GetHadronicEnergy() < trackEnergy) && IsCaloHitAvailable(pCaloHit))`
then add the hit to the cluster (which clears its availability). -/
def fcStep (st : FCState) (r : TrackDistanceInfo) : FCState :=
  if fcClusterEnergy st r.trackId < r.trackEnergy ∧ st.avail r.hit.hid then
    ⟨fun i => if i == r.hit.hid then false else st.avail i,
     (r.trackId, r.hit) :: st.assigned⟩
  else st

/-- The full assignment walk along a list of distance records. -/
def fcWalk (rs : List TrackDistanceInfo) (st : FCState) : FCState :=
  rs.foldl fcStep st

/-- Modelled from the spec: the comparator `ForcedClusteringAlgorithm::SortByDistanceToTrack`
is declared in the algorithm header, which is not among the sources; the spec
states the sort is ascending by distance magnitude. -/
def DistLE (a b : TrackDistanceInfo) : Prop :=
  a.distanceToTrack ≤ b.distanceToTrack

instance : DecidableRel DistLE :=
  fun a b => inferInstanceAs (Decidable (a.distanceToTrack ≤ b.distanceToTrack))

instance : IsTotal TrackDistanceInfo DistLE :=
  ⟨fun a b => le_total a.distanceToTrack b.distanceToTrack⟩

instance : IsTrans TrackDistanceInfo DistLE :=
  ⟨fun _ _ _ hab hbc => le_trans hab hbc⟩

/-- The postcondition `std::sort` guarantees for the call on line 60 of
`ForcedClusteringAlgorithm.cc`: the output is a permutation of the input that
is sorted with respect to the comparator. `std::sort` guarantees nothing about
the relative order of elements the comparator considers equivalent. -/
def IsStdSortResult (input output : List TrackDistanceInfo) : Prop :=
  input.Perm output ∧ output.Sorted DistLE

/-- The sorted record list used by the model run.  `List.insertionSort` is a
stable ascending sort: it realises one admissible outcome of the `std::sort`
call (see `IsStdSortResult`). -/
def fcSortedRecords (helixDist : Nat → Nat → ℚ) (cfg : FCConfig)
    (tracks : List FCTrack) (hits : List FCHit) (avail0 : Nat → Bool) :
    List TrackDistanceInfo :=
  List.insertionSort DistLE (fcRecords helixDist cfg avail0 tracks hits)

/-- The state after the assignment walk of `ForcedClusteringAlgorithm::Run`,
starting from the input availability flags and no assignments. -/
def fcFinalState (helixDist : Nat → Nat → ℚ) (cfg : FCConfig)
    (tracks : List FCTrack) (hits : List FCHit) (avail0 : Nat → Bool) : FCState :=
  fcWalk (fcSortedRecords helixDist cfg tracks hits avail0) ⟨avail0, []⟩

/-- The remnant hits: input hits still available (and passing the isolation
policy) after the assignment walk. -/
def fcRemnantHits (cfg : FCConfig) (avail : Nat → Bool) (hits : List FCHit) :
    List FCHit :=
  hits.filter (fcHitEligible cfg avail)

/-- Result of `ForcedClusteringAlgorithm::Run`: status code, the surviving
track-seeded clusters (after `RemoveEmptyClusters`), the optional remnant
cluster, and the final hit availability flags. -/
structure FCResult where
  status : StatusCode
  trackClusters : List (Nat × List FCHit)
  remnantCluster : Option (List FCHit)
  finalAvail : Nat → Bool

/-- Shallow embedding of `ForcedClusteringAlgorithm::Run`.  The daughter
sub-algorithm invocations (standard clustering for remnants, isolated hit
association) are external collaborators and fall outside the embedded state;
the modelled remnant handling is the fallback branch that collects remaining
eligible hits into a single cluster. -/
def forcedClusteringRun (helixDist : Nat → Nat → ℚ) (cfg : FCConfig)
    (tracks : List FCTrack) (hits : List FCHit) (avail0 : Nat → Bool) : FCResult :=
  if tracks.isEmpty || hits.isEmpty then
    ⟨.invalidParameter, [], none, avail0⟩
  else
    let st := fcFinalState helixDist cfg tracks hits avail0
    let remnant :=
      if cfg.shouldRunStandardClusteringAlgorithm then [] else fcRemnantHits cfg st.avail hits
    ⟨.success,
     (tracks.map (fun t => (t.tid, fcMembers st t.tid))).filter (fun p => !p.2.isEmpty),
     if cfg.shouldRunStandardClusteringAlgorithm || remnant.isEmpty then none
     else some remnant,
     st.avail⟩

/-- The DCA energy of the (first) track with id `tid` in the track list. -/
def fcTrackEnergy (tracks : List FCTrack) (tid : Nat) : ℚ :=
  match tracks.find? (fun t => t.tid == tid) with
  | some t => t.energyAtDca
  | none => 0

/-- The energy-cap invariant: every cluster is either empty or its energy
exceeds its track energy by strictly less than the energy of the most recently
added hit (the head of the member list). -/
def FCCapOK (tE : Nat → ℚ) (st : FCState) : Prop :=
  ∀ tid h t, fcMembers st tid = h :: t →
    fcClusterEnergy st tid < tE tid + h.hadronicEnergy

/-- Total number of occurrences of hit id `i` across all clusters of a run
result (track-seeded clusters and the remnant cluster). -/
def fcCountHit (res : FCResult) (i : Nat) : Nat :=
  ((res.trackClusters.map (fun p => p.2.countP (fun h => h.hid == i))).sum)
    + (res.remnantCluster.getD []).countP (fun h => h.hid == i)

/-! ## Mip-photon separation: data model (`MipPhotonSeparationAlgorithm.cc`) -/

/-- A 3-vector with rational components, modelling `pandora::CartesianVector`. -/
abbrev Vec3 := ℚ × ℚ × ℚ

/-- Componentwise vector difference (`CartesianVector::operator-`). -/
def vsub (a b : Vec3) : Vec3 :=
  (a.1 - b.1, a.2.1 - b.2.1, a.2.2 - b.2.2)

/-- Vector cross product (`CartesianVector::GetCrossProduct`). -/
def vcross (a b : Vec3) : Vec3 :=
  (a.2.1 * b.2.2 - a.2.2 * b.2.1,
   a.2.2 * b.1 - a.1 * b.2.2,
   a.1 * b.2.1 - a.2.1 * b.1)

/-- Calorimeter hit type: the code distinguishes `ECAL` from everything else
when choosing the pad-width constant. -/
inductive HitType where
  | ecal
  | hcal
  deriving DecidableEq, Repr

/-- A calo hit as used by `MipPhotonSeparationAlgorithm`: identity, pseudo
layer, position, hit type, cell length scale and possible-mip flag. -/
structure MPHit where
  hid : Nat
  layer : Nat
  position : Vec3
  hitType : HitType
  cellLengthScale : ℚ
  isPossibleMip : Bool
  deriving DecidableEq, Repr

/-- Configuration parameters read by
`MipPhotonSeparationAlgorithm::ReadSettings`. -/
structure MPConfig where
  nLayersForMipRegion : Nat
  nLayersForShowerRegion : Nat
  maxLayersMissed : Nat
  minMipRegion2Span : Nat
  maxShowerStartLayer : Nat
  minShowerRegionSpan : Nat
  maxShowerStartLayer2 : Nat
  minShowerRegionSpan2 : Nat
  nonPhotonDeltaChi2Cut : ℚ
  photonDeltaChi2Cut : ℚ
  minHitsInPhotonCluster : Nat
  genericDistanceCut : ℚ
  trackPathWidth : ℚ
  maxTrackSeparation : ℚ
  additionalPadWidthsECal : ℚ
  additionalPadWidthsHCal : ℚ
  deriving DecidableEq, Repr

/-- The sentinel `LAYER_MAX = std::numeric_limits<unsigned int>::max()`. -/
def LAYER_MAX : Nat := 2 ^ 32 - 1

/-- Wrap-around subtraction of `unsigned int` pseudo layers, as performed by
the layer-span computations in `ShouldFragmentCluster`. -/
def wsub (a b : Nat) : Nat :=
  (a % 2 ^ 32 + 2 ^ 32 - b % 2 ^ 32) % 2 ^ 32

/-- Models `std::numeric_limits<float>::max()`, the initial value of the
`distance` variable in the layer scan; the value is never read on the
non-`SUCCESS` paths where it survives. -/
def floatMaxQ : ℚ := 2 ^ 128

/-- The raw 3D separation of `GetDistanceToTrack`:
`(hitPosition - trackSeedPosition).GetMagnitude()`.  The magnitude function
`mag` models `CartesianVector::GetMagnitude`, framework code outside the
algorithm sources, and is a parameter of the whole development. -/
def mpSeparation (mag : Vec3 → ℚ) (trackSeedPosition : Vec3) (h : MPHit) : ℚ :=
  mag (vsub h.position trackSeedPosition)

/-- The perpendicular component of the separation relative to the cluster's
initial direction: the cross-product magnitude `dPerp` of `GetDistanceToTrack`. -/
def mpDPerp (mag : Vec3 → ℚ) (clusterInitialDirection trackSeedPosition : Vec3)
    (h : MPHit) : ℚ :=
  mag (vcross clusterInitialDirection (vsub h.position trackSeedPosition))

/-- The cut width `dCut` of `GetDistanceToTrack`: a hit-type-dependent pad
width times the cell length scale times the flexibility factor
`1 + trackPathWidth * (separation / maxTrackSeparation)`. -/
def mpDCut (mag : Vec3 → ℚ) (cfg : MPConfig) (trackSeedPosition : Vec3)
    (h : MPHit) : ℚ :=
  let flexibility :=
    1 + cfg.trackPathWidth * (mpSeparation mag trackSeedPosition h / cfg.maxTrackSeparation)
  if h.hitType = .ecal then
    flexibility * (cfg.additionalPadWidthsECal * h.cellLengthScale)
  else
    flexibility * (cfg.additionalPadWidthsHCal * h.cellLengthScale)

/-- Shallow embedding of `MipPhotonSeparationAlgorithm::GetDistanceToTrack`.
The C++ `distance` reference parameter is modelled by threading its incoming
value through: the returned rational is the updated value of `distance`, which
is written only on the `SUCCESS` path. -/
def getDistanceToTrack (mag : Vec3 → ℚ) (cfg : MPConfig)
    (clusterInitialDirection trackSeedPosition : Vec3) (h : MPHit)
    (distance : ℚ) : StatusCode × ℚ :=
  if cfg.maxTrackSeparation = 0 then (.failure, distance)
  else if mpSeparation mag trackSeedPosition h < cfg.maxTrackSeparation then
    if mpDCut mag cfg trackSeedPosition h = 0 then (.failure, distance)
    else (.success,
      mpDPerp mag clusterInitialDirection trackSeedPosition h / mpDCut mag cfg trackSeedPosition h)
  else (.unchanged, distance)

/-- A cluster as used by `MipPhotonSeparationAlgorithm`: its ordinary calo
hits, its isolated calo hits, and its initial direction. -/
structure MPCluster where
  caloHits : List MPHit
  isolatedHits : List MPHit
  initialDirection : Vec3
  deriving DecidableEq, Repr

/-- The hits of the cluster's ordered calo hit list lying in pseudo layer `l`
(`orderedCaloHitList.find(iLayer)`). -/
def hitsAtLayer (hs : List MPHit) (l : Nat) : List MPHit :=
  hs.filter (fun h => h.layer == l)

/-- The cluster's outer pseudo layer (`Cluster::GetOuterPseudoLayer`): the
largest layer holding a hit of the ordered calo hit list. -/
def mpOuterLayer (c : MPCluster) : Nat :=
  (c.caloHits.map MPHit.layer).foldr max 0

/-- Modelled from the spec: the framework constant `TRACK_PROJECTION_LAYER`
is not among the sources; the spec states the scan runs from
(track-projection layer + 1), and the constant's value is immaterial to the
claims. -/
def TRACK_PROJECTION_LAYER : Nat := 0

/-- The per-layer hit-classification flags of the scan in
`ShouldFragmentCluster`. -/
structure LayerFlags where
  trackHitFound : Bool
  mipTrackHitFound : Bool
  showerTrackHitFound : Bool
  deriving DecidableEq, Repr

/-- Processing of a single hit inside the per-layer hit loop of
`ShouldFragmentCluster`: a hit whose `GetDistanceToTrack` result is not
`SUCCESS` is skipped (`continue`); otherwise a distance below the generic cut
marks the layer as track-hit-found and as mip or shower according to the hit's
possible-mip flag. -/
def layerFlagsStep (mag : Vec3 → ℚ) (cfg : MPConfig)
    (clusterInitialDirection trackSeedPosition : Vec3) (f : LayerFlags)
    (h : MPHit) : LayerFlags :=
  let r := getDistanceToTrack mag cfg clusterInitialDirection trackSeedPosition h floatMaxQ
  if r.1 ≠ .success then f
  else if r.2 < cfg.genericDistanceCut then
    ⟨true,
     f.mipTrackHitFound || h.isPossibleMip,
     f.showerTrackHitFound || !h.isPossibleMip⟩
  else f

/-- The flags computed for one pseudo layer's hit list. -/
def layerFlags (mag : Vec3 → ℚ) (cfg : MPConfig)
    (clusterInitialDirection trackSeedPosition : Vec3) (hs : List MPHit) :
    LayerFlags :=
  hs.foldl (layerFlagsStep mag cfg clusterInitialDirection trackSeedPosition)
    ⟨false, false, false⟩

/-- The mutable state of the layer scan in `ShouldFragmentCluster`. -/
structure ScanState where
  layersMissed : Nat
  mipCount : Nat
  showerCount : Nat
  mipRegion1 : Bool
  mipRegion2 : Bool
  showerRegion : Bool
  shouldContinue : Bool
  mipRegion1StartLayer : Nat
  mipRegion1EndLayer : Nat
  mipRegion2StartLayer : Nat
  mipRegion2EndLayer : Nat
  showerStartLayer : Nat
  showerEndLayer : Nat
  deriving DecidableEq, Repr

/-- The initial scan state of `ShouldFragmentCluster`: counters at zero,
`mipRegion1` on, all boundary markers at the sentinel. -/
def scanInit : ScanState :=
  ⟨0, 0, 0, true, false, false, true,
   LAYER_MAX, LAYER_MAX, LAYER_MAX, LAYER_MAX, LAYER_MAX, LAYER_MAX⟩

/-- One iteration of the pseudo-layer loop body of `ShouldFragmentCluster`,
given the flags found for the layer.  The sequential field updates of the C++
code are translated block by block; the region flags read by each block are
those of the incoming state, because the two flag-mutating blocks are guarded
by the mutually exclusive conditions `mip && !shower` and `!mip && shower`. -/
def scanStep (cfg : MPConfig) (st : ScanState) (iLayer : Nat) (f : LayerFlags) :
    ScanState :=
  let lm := if f.trackHitFound then 0 else st.layersMissed + 1
  let m1End := if f.mipTrackHitFound && st.mipRegion1 then iLayer else st.mipRegion1EndLayer
  let m2End := if f.mipTrackHitFound && st.mipRegion2 then iLayer else st.mipRegion2EndLayer
  let sEnd := if f.showerTrackHitFound && st.showerRegion then iLayer else st.showerEndLayer
  let mipOnly := f.mipTrackHitFound && !f.showerTrackHitFound
  let m1Start :=
    if mipOnly && st.mipRegion1 && decide (iLayer < st.mipRegion1StartLayer) then iLayer
    else st.mipRegion1StartLayer
  let sc1 := if mipOnly && (st.mipRegion1 || st.mipRegion2) then 0 else st.showerCount
  let mipAtThreshold := decide (st.mipCount + 1 = cfg.nLayersForMipRegion)
  let mipTransition := mipOnly && st.showerRegion && mipAtThreshold
  let mc1 := if mipOnly && st.showerRegion then st.mipCount + 1 else st.mipCount
  let m2a := if mipTransition then true else st.mipRegion2
  let sRa := if mipTransition then false else st.showerRegion
  let sc2 := if mipTransition then 0 else sc1
  let m2Start :=
    if mipOnly && st.showerRegion && !mipAtThreshold then iLayer
    else st.mipRegion2StartLayer
  let showerOnly := !f.mipTrackHitFound && f.showerTrackHitFound
  let mc2 := if showerOnly && st.showerRegion then 0 else mc1
  let inMip12 := st.mipRegion1 || st.mipRegion2
  let showerAtThreshold := decide (st.showerCount + 1 = cfg.nLayersForShowerRegion)
  let showerTransition := showerOnly && inMip12 && showerAtThreshold
  let sc3 := if showerOnly && inMip12 then st.showerCount + 1 else sc2
  let sRb := if showerTransition && st.mipRegion1 then true else sRa
  let m1b := if showerTransition && st.mipRegion1 then false else st.mipRegion1
  let sc4 := if showerTransition && st.mipRegion1 then 0 else sc3
  let cont1 := if showerTransition && st.mipRegion2 then false else st.shouldContinue
  let sStart :=
    if showerOnly && inMip12 && !showerAtThreshold && st.mipRegion1 then iLayer
    else st.showerStartLayer
  let cont2 := if lm > cfg.maxLayersMissed then false else cont1
  ⟨lm, mc2, sc4, m1b, m2a, sRb, cont2, m1Start, m1End, m2Start, m2End, sStart, sEnd⟩

/-- The pseudo-layer loop of `ShouldFragmentCluster`: iterate over the given
layers while `shouldContinue` holds, computing each layer's flags from the
cluster's hits in that layer. -/
def scanLoop (mag : Vec3 → ℚ) (cfg : MPConfig)
    (clusterInitialDirection trackSeedPosition : Vec3) (hs : List MPHit) :
    List Nat → ScanState → ScanState
  | [], st => st
  | l :: rest, st =>
    if st.shouldContinue then
      scanLoop mag cfg clusterInitialDirection trackSeedPosition hs rest
        (scanStep cfg st l
          (layerFlags mag cfg clusterInitialDirection trackSeedPosition
            (hitsAtLayer hs l)))
    else st

/-- The inclusive layer range `[first, last]`. -/
def layerRange (first last : Nat) : List Nat :=
  List.range' first (last + 1 - first)

/-- The final scan state of `ShouldFragmentCluster` for a cluster, scanning
from `TRACK_PROJECTION_LAYER + 1` to the cluster's outer pseudo layer. -/
def runScan (mag : Vec3 → ℚ) (cfg : MPConfig) (c : MPCluster)
    (trackSeedPosition : Vec3) : ScanState :=
  scanLoop mag cfg c.initialDirection trackSeedPosition c.caloHits
    (layerRange (TRACK_PROJECTION_LAYER + 1) (mpOuterLayer c)) scanInit

/-- The final decision block of `ShouldFragmentCluster`, translated from the
if-chain on the scan results. -/
def shouldFragmentDecision (cfg : MPConfig) (st : ScanState) : Bool :=
  if st.mipRegion2EndLayer = LAYER_MAX then false
  else if st.showerEndLayer ≠ LAYER_MAX ∧ st.showerStartLayer = LAYER_MAX then true
  else if (st.mipRegion2EndLayer ≠ LAYER_MAX ∧
            wsub st.mipRegion2EndLayer st.mipRegion2StartLayer > cfg.minMipRegion2Span) ∧
          (st.showerStartLayer < cfg.maxShowerStartLayer ∧
            (st.showerEndLayer ≠ LAYER_MAX ∧
              wsub st.showerEndLayer st.showerStartLayer > cfg.minShowerRegionSpan)) then true
  else if st.showerStartLayer < cfg.maxShowerStartLayer2 ∧
          (st.showerEndLayer ≠ LAYER_MAX ∧
            wsub st.showerEndLayer st.showerStartLayer > cfg.minShowerRegionSpan2) then true
  else false

/-- `MipPhotonSeparationAlgorithm::ShouldFragmentCluster`: the decision plus
the shower start/end layer reference parameters it passes back to `Run`. -/
def shouldFragmentCluster (mag : Vec3 → ℚ) (cfg : MPConfig) (c : MPCluster)
    (trackSeedPosition : Vec3) : Bool × Nat × Nat :=
  let st := runScan mag cfg c trackSeedPosition
  (shouldFragmentDecision cfg st, st.showerStartLayer, st.showerEndLayer)

/-- Ordering of hits by pseudo layer, used to model iteration of the merged
`OrderedCaloHitList` in increasing layer order. -/
def LayerLE (a b : MPHit) : Prop := a.layer ≤ b.layer

instance : DecidableRel LayerLE :=
  fun a b => inferInstanceAs (Decidable (a.layer ≤ b.layer))

instance : IsTotal MPHit LayerLE := ⟨fun a b => Nat.le_total a.layer b.layer⟩

instance : IsTrans MPHit LayerLE := ⟨fun _ _ _ hab hbc => Nat.le_trans hab hbc⟩

/-- The union of the cluster's ordinary and isolated hit collections, as
produced by `orderedCaloHitList.Add(pOriginalCluster->GetIsolatedCaloHitList())`. -/
def mpCombinedHits (c : MPCluster) : List MPHit :=
  c.caloHits ++ c.isolatedHits

/-- The iteration sequence of `MakeClusterFragments`: the combined hits in
increasing pseudo-layer order (the `OrderedCaloHitList` iterates its layer map
in ascending key order; the order of hits inside one layer is not observable
through the claims). -/
def mcfSequence (c : MPCluster) : List MPHit :=
  List.insertionSort LayerLE (mpCombinedHits c)

/-- The routing test of `MakeClusterFragments` for one hit: after the
`GetDistanceToTrack` call (with `distance` initialised to `0.f`), the hit goes
to the mip fragment iff
`(distance < m_genericDistanceCut) || (iLayer < showerStartLayer) || (iLayer > showerEndLayer)`. -/
def mcfRouteToMip (mag : Vec3 → ℚ) (cfg : MPConfig)
    (clusterInitialDirection trackSeedPosition : Vec3)
    (showerStartLayer showerEndLayer : Nat) (h : MPHit) : Bool :=
  let r := getDistanceToTrack mag cfg clusterInitialDirection trackSeedPosition h 0
  decide (r.2 < cfg.genericDistanceCut) || decide (h.layer < showerStartLayer) ||
    decide (showerEndLayer < h.layer)

/-- The hit loop of `MakeClusterFragments`.  A `FAILURE` from
`GetDistanceToTrack` propagates immediately (the
`PANDORA_RETURN_RESULT_IF_AND_IF` macro lets only `SUCCESS` and `UNCHANGED`
through), leaving the fragments built so far in the output parameters; a
routed hit creates its fragment on first use and is appended afterwards. -/
def mcfGo (mag : Vec3 → ℚ) (cfg : MPConfig)
    (clusterInitialDirection trackSeedPosition : Vec3)
    (showerStartLayer showerEndLayer : Nat) :
    List MPHit → Option (List MPHit) → Option (List MPHit) →
    StatusCode × Option (List MPHit) × Option (List MPHit)
  | [], m, p => (.success, m, p)
  | h :: rest, m, p =>
    let r := getDistanceToTrack mag cfg clusterInitialDirection trackSeedPosition h 0
    if r.1 ≠ .success ∧ r.1 ≠ .unchanged then (r.1, m, p)
    else if r.2 < cfg.genericDistanceCut ∨ h.layer < showerStartLayer ∨
            showerEndLayer < h.layer then
      mcfGo mag cfg clusterInitialDirection trackSeedPosition showerStartLayer
        showerEndLayer rest (some (m.getD [] ++ [h])) p
    else
      mcfGo mag cfg clusterInitialDirection trackSeedPosition showerStartLayer
        showerEndLayer rest m (some (p.getD [] ++ [h]))

/-- Shallow embedding of `MipPhotonSeparationAlgorithm::MakeClusterFragments`:
walk the merged ordered hit collection, routing each hit to the mip or photon
fragment.  Returns the status code together with the two optional fragments. -/
def makeClusterFragments (mag : Vec3 → ℚ) (cfg : MPConfig) (c : MPCluster)
    (trackSeedPosition : Vec3) (showerStartLayer showerEndLayer : Nat) :
    StatusCode × Option (List MPHit) × Option (List MPHit) :=
  mcfGo mag cfg c.initialDirection trackSeedPosition showerStartLayer
    showerEndLayer (mcfSequence c) none none

/-- Summary data of a cluster fragment as consumed by the selection decision
in `MipPhotonSeparationAlgorithm::Run`. -/
structure FragmentInfo where
  nCaloHits : Nat
  isPhotonFast : Bool
  correctedHadronicEnergy : ℚ
  deriving DecidableEq, Repr

/-- The squared-chi delta of the selection decision:
`newChi * newChi - originalChi * originalChi`, where both compatibility scores
are computed by the external `ReclusterHelper::GetTrackClusterCompatibility`
(modelled by the parameter `chi`, applied to a cluster energy and the track
DCA energy). -/
def fragmentDeltaChi2 (chi : ℚ → ℚ → ℚ) (originalEnergy trackEnergy mipEnergy : ℚ) : ℚ :=
  chi mipEnergy trackEnergy * chi mipEnergy trackEnergy -
    chi originalEnergy trackEnergy * chi originalEnergy trackEnergy

/-- The fragment selection decision of `MipPhotonSeparationAlgorithm::Run`
(lines 73–90): evaluated only when both fragments are non-null, it accepts the
fragmentation iff the photon fragment has enough hits and the chi-squared
cuts pass; with a null fragment the original cluster is always kept. -/
def fragmentSelection (chi : ℚ → ℚ → ℚ) (cfg : MPConfig)
    (originalEnergy trackEnergy : ℚ)
    (mip photon : Option FragmentInfo) : Bool :=
  match mip, photon with
  | some m, some p =>
    let dChi2 := fragmentDeltaChi2 chi originalEnergy trackEnergy m.correctedHadronicEnergy
    let passChi2Cuts :=
      dChi2 < cfg.nonPhotonDeltaChi2Cut ∨
        (p.isPhotonFast ∧ dChi2 < cfg.photonDeltaChi2Cut)
    decide (p.nCaloHits ≥ cfg.minHitsInPhotonCluster ∧ passChi2Cuts)
  | _, _ => false

/-! ## Spec-side reformulations used by refinement claims -/

/-- The result contract of `GetDistanceToTrack` as the spec words it:
fail on zero maximum separation; `UNCHANGED` when the raw separation is at
least the maximum; fail on a zero cut width; otherwise succeed with the
perpendicular component divided by the cut width. -/
def getDistanceToTrackSpec (mag : Vec3 → ℚ) (cfg : MPConfig)
    (clusterInitialDirection trackSeedPosition : Vec3) (h : MPHit)
    (distance : ℚ) : StatusCode × ℚ :=
  if cfg.maxTrackSeparation = 0 then (.failure, distance)
  else if mpSeparation mag trackSeedPosition h ≥ cfg.maxTrackSeparation then
    (.unchanged, distance)
  else if mpDCut mag cfg trackSeedPosition h = 0 then (.failure, distance)
  else (.success,
    mpDPerp mag clusterInitialDirection trackSeedPosition h / mpDCut mag cfg trackSeedPosition h)

/-- The fragmentation decision of `ShouldFragmentCluster` as the spec words
it: a sentinel check on `mipRegion2EndLayer`, then the three acceptance
branches in order. -/
def shouldFragmentDecisionSpec (cfg : MPConfig) (st : ScanState) : Bool :=
  if st.mipRegion2EndLayer = LAYER_MAX then false
  else if st.showerEndLayer ≠ LAYER_MAX ∧ st.showerStartLayer = LAYER_MAX then true
  else if wsub st.mipRegion2EndLayer st.mipRegion2StartLayer > cfg.minMipRegion2Span ∧
          st.showerStartLayer < cfg.maxShowerStartLayer ∧
          st.showerEndLayer ≠ LAYER_MAX ∧
          wsub st.showerEndLayer st.showerStartLayer > cfg.minShowerRegionSpan then true
  else if st.showerStartLayer < cfg.maxShowerStartLayer2 ∧
          st.showerEndLayer ≠ LAYER_MAX ∧
          wsub st.showerEndLayer st.showerStartLayer > cfg.minShowerRegionSpan2 then true
  else false

/-- The reachability invariant of the layer scan: while `mipRegion1` is still
on, neither `showerRegion` nor `mipRegion2` has been entered and
`mipRegion2EndLayer` still holds the sentinel. -/
def MipRegion1Inv (st : ScanState) : Prop :=
  st.mipRegion1 = true →
    st.mipRegion2 = false ∧ st.showerRegion = false ∧ st.mipRegion2EndLayer = LAYER_MAX

/-- Number of assignments of hit id `i` made by the walk so far. -/
def countAssigned (st : FCState) (i : Nat) : Nat :=
  st.assigned.countP (fun p => p.2.hid == i)

/-- The availability invariant of the walk: every hit id is assigned at most
once, and a still-available hit has never been assigned. -/
def AvailInv (st : FCState) : Prop :=
  ∀ i, countAssigned st i ≤ 1 ∧ (st.avail i = true → countAssigned st i = 0)

/-! ## Concrete instantiations used by witnesses and counterexamples -/

/-- A computable norm-like magnitude used to instantiate the abstract
magnitude parameter on concrete inputs (no claim depends on which norm the
framework uses). -/
def qTaxicab : Vec3 → ℚ := fun v => |v.1| + |v.2.1| + |v.2.2|

/-- A forced-clustering configuration with all flags off (their defaults). -/
def fcCfgW : FCConfig := ⟨false, false, false⟩

/-- A helix-distance instantiation that returns zero for every pair. -/
def fcDistZero : Nat → Nat → ℚ := fun _ _ => 0

/-- A concrete track of DCA energy 1. -/
def fcTrackW1 : FCTrack := ⟨1, 1⟩

/-- A second concrete track of DCA energy 1. -/
def fcTrackW2 : FCTrack := ⟨2, 1⟩

/-- A concrete available hit of hadronic energy 1. -/
def fcHitW : FCHit := ⟨7, 1, false⟩

/-- The mip-photon configuration with the documented default values. -/
def mpCfgW : MPConfig := ⟨2, 2, 1, 4, 20, 4, 5, 200, 0, 1, 6, 1, 2, 1000, 1, 1⟩

/-- A concrete hit far from the track seed: its raw separation (2000) exceeds
the maximum track separation (1000), so `GetDistanceToTrack` returns
`UNCHANGED` for it. -/
def mpHitFar : MPHit := ⟨9, 2, (2000, 0, 0), .ecal, 1, true⟩

/-- A mip-type hit sitting exactly on the track seed position in layer `l`. -/
def mpMipHitAt (l i : Nat) : MPHit := ⟨i, l, (0, 0, 0), .ecal, 1, true⟩

/-- A shower-type hit sitting exactly on the track seed position in layer `l`. -/
def mpShowerHitAt (l i : Nat) : MPHit := ⟨i, l, (0, 0, 0), .ecal, 1, false⟩

/-- A cluster whose layers alternate mip/shower hits, so the shower streak
never reaches the threshold 2 (spec Scenario C). -/
def mpAltCluster : MPCluster :=
  ⟨[mpMipHitAt 1 1, mpShowerHitAt 2 2, mpMipHitAt 3 3, mpShowerHitAt 4 4], [], (1, 0, 0)⟩

/-- A hit that `GetDistanceToTrack` routes to the mip fragment (layer 1,
distance 0). -/
def mpHitM : MPHit := ⟨1, 1, (0, 0, 0), .ecal, 1, true⟩

/-- A hit that `MakeClusterFragments` routes to the photon fragment: its
perpendicular distance score is 500/101 ≥ 1 and its layer 2 lies inside the
shower range [2, 3]. -/
def mpHitP : MPHit := ⟨2, 2, (0, 0, 5), .ecal, 1, false⟩

/-- A hit with zero cell length scale: its cut width is zero, so
`GetDistanceToTrack` returns `FAILURE` for it. -/
def mpHitBad : MPHit := ⟨3, 3, (0, 0, 0), .ecal, 0, true⟩

/-- A three-hit cluster on which `MakeClusterFragments` fails midway: the
first hit goes to the mip fragment, the second to the photon fragment, and
the third aborts the walk with `FAILURE`, losing the hit. -/
def mpCexCluster : MPCluster := ⟨[mpHitM, mpHitP, mpHitBad], [], (1, 0, 0)⟩

/-- A scan state in `mipRegion1` with a shower streak of length 1, one short
of the default threshold 2. -/
def scanStW : ScanState :=
  ⟨0, 0, 1, true, false, false, true,
   LAYER_MAX, LAYER_MAX, LAYER_MAX, LAYER_MAX, LAYER_MAX, LAYER_MAX⟩

/-- The records produced for two tracks sharing the single available hit:
both records carry distance 0, so their order is a pure tie-break. -/
def fcRecsW : List TrackDistanceInfo :=
  fcRecords fcDistZero fcCfgW (fun _ => true) [fcTrackW1, fcTrackW2] [fcHitW]

/-- The tie reversed: the second track's record first.  This is also a sorted
permutation of `fcRecsW`, hence an admissible `std::sort` outcome. -/
def fcAltW : List TrackDistanceInfo :=
  [⟨fcHitW, 2, 1, 0⟩, ⟨fcHitW, 1, 1, 0⟩]

/-! ## Claim theorems -/

/-- Claim C9: `ForcedClusteringAlgorithm::Run` returns `INVALID_PARAMETER`
whenever the current track list or the current ordered calo hit list is
empty, creating no clusters and leaving the hit availability unchanged. -/
theorem C9_emptyInputFailure (helixDist : Nat → Nat → ℚ) (cfg : FCConfig)
    (tracks : List FCTrack) (hits : List FCHit) (avail0 : Nat → Bool)
    (hempty : tracks = [] ∨ hits = []) :
    forcedClusteringRun helixDist cfg tracks hits avail0 =
      ⟨.invalidParameter, [], none, avail0⟩ := by
  rcases hempty with h | h <;> subst h <;> simp [forcedClusteringRun]

/-- Witness for C9 at a concrete input: the empty track list with one
available hit. -/
theorem C9_emptyInputFailure_witness :
    forcedClusteringRun fcDistZero fcCfgW [] [fcHitW] (fun _ => true) =
      ⟨.invalidParameter, [], none, fun _ => true⟩ :=
  C9_emptyInputFailure fcDistZero fcCfgW [] [fcHitW] (fun _ => true) (Or.inl rfl)

/-- Claim C4: `GetDistanceToTrack` realises its result contract: `FAILURE`
for a zero maximum track separation, `UNCHANGED` when the raw separation
reaches the maximum, `FAILURE` for a zero cut width, and otherwise `SUCCESS`
with the perpendicular separation component divided by the cut width. -/
theorem C4_getDistanceToTrackContract (mag : Vec3 → ℚ) (cfg : MPConfig)
    (clusterInitialDirection trackSeedPosition : Vec3) (h : MPHit) (distance : ℚ) :
    getDistanceToTrack mag cfg clusterInitialDirection trackSeedPosition h distance =
      getDistanceToTrackSpec mag cfg clusterInitialDirection trackSeedPosition h distance := by
  unfold getDistanceToTrack getDistanceToTrackSpec
  by_cases h1 : cfg.maxTrackSeparation = 0
  · simp [h1]
  by_cases h2 : mpSeparation mag trackSeedPosition h < cfg.maxTrackSeparation
  · have hge : ¬ mpSeparation mag trackSeedPosition h ≥ cfg.maxTrackSeparation :=
      not_le.mpr h2
    simp [h1, h2, hge]
  · have hge : mpSeparation mag trackSeedPosition h ≥ cfg.maxTrackSeparation :=
      not_lt.mp h2
    simp [h1, h2, hge]

/-- Claim C6: the final decision block of `ShouldFragmentCluster` equals the
spec's description: sentinel check on `mipRegion2EndLayer`, then the
shower-end-without-start branch, then the mipRegion2-span branch, then the
second start-layer-ceiling branch, otherwise `false`. -/
theorem C6_fragmentDecisionStructure (cfg : MPConfig) (st : ScanState) :
    shouldFragmentDecision cfg st = shouldFragmentDecisionSpec cfg st := by
  unfold shouldFragmentDecision shouldFragmentDecisionSpec
  split_ifs <;> tauto

/-- Claim C7: the fragment pair replaces the original cluster iff both
fragments are non-null, the photon fragment has at least
`MinHitsInPhotonCluster` hits, and the squared-chi delta passes the ordinary
cut or the looser fast-photon cut; with a null fragment the original is
always retained. -/
theorem C7_fragmentSelectionPolicy (chi : ℚ → ℚ → ℚ) (cfg : MPConfig)
    (originalEnergy trackEnergy : ℚ) (mip photon : Option FragmentInfo) :
    (fragmentSelection chi cfg originalEnergy trackEnergy mip photon = true ↔
      ∃ m p, mip = some m ∧ photon = some p ∧
        p.nCaloHits ≥ cfg.minHitsInPhotonCluster ∧
        (fragmentDeltaChi2 chi originalEnergy trackEnergy m.correctedHadronicEnergy <
            cfg.nonPhotonDeltaChi2Cut ∨
          (p.isPhotonFast = true ∧
            fragmentDeltaChi2 chi originalEnergy trackEnergy m.correctedHadronicEnergy <
              cfg.photonDeltaChi2Cut)))
    ∧ (mip = none ∨ photon = none →
        fragmentSelection chi cfg originalEnergy trackEnergy mip photon = false) := by
  constructor
  · cases mip with
    | none => simp [fragmentSelection]
    | some m =>
      cases photon with
      | none => simp [fragmentSelection]
      | some p => simp [fragmentSelection]
  · rintro (rfl | rfl)
    · cases photon <;> rfl
    · cases mip <;> rfl

/-- Witness for C7 at concrete inputs: a null mip fragment is always
rejected. -/
theorem C7_fragmentSelectionPolicy_witness :
    fragmentSelection (fun a b => a - b) mpCfgW 1 1 none (some ⟨9, false, 1⟩) = false :=
  (C7_fragmentSelectionPolicy (fun a b => a - b) mpCfgW 1 1 none (some ⟨9, false, 1⟩)).2
    (Or.inl rfl)

/-- On the `UNCHANGED` path, `GetDistanceToTrack` leaves the `distance`
reference parameter untouched. -/
lemma getDistanceToTrack_unchanged_val (mag : Vec3 → ℚ) (cfg : MPConfig)
    (dir tsp : Vec3) (h : MPHit) (d0 : ℚ)
    (hu : (getDistanceToTrack mag cfg dir tsp h d0).1 = .unchanged) :
    (getDistanceToTrack mag cfg dir tsp h d0).2 = d0 := by
  unfold getDistanceToTrack at hu ⊢
  split_ifs at hu ⊢
  all_goals simp_all

/-- Claim C10: a hit for which `GetDistanceToTrack` returns `UNCHANGED` is
not skipped by `MakeClusterFragments`: its `distance` stays at the
initialised 0, so with a positive generic cut the hit is routed to the mip
fragment regardless of its layer; by contrast the layer scan of
`ShouldFragmentCluster` skips any hit whose result is not `SUCCESS`. -/
theorem C10_unchangedHitNotSkipped (mag : Vec3 → ℚ) (cfg : MPConfig)
    (dir tsp : Vec3) :
    (∀ (h : MPHit) (d0 : ℚ),
        (getDistanceToTrack mag cfg dir tsp h d0).1 = .unchanged →
        (getDistanceToTrack mag cfg dir tsp h d0).2 = d0)
    ∧ (∀ (sStart sEnd : Nat) (rest : List MPHit) (m p : Option (List MPHit))
          (h : MPHit),
        (getDistanceToTrack mag cfg dir tsp h 0).1 = .unchanged →
        0 < cfg.genericDistanceCut →
        mcfGo mag cfg dir tsp sStart sEnd (h :: rest) m p =
          mcfGo mag cfg dir tsp sStart sEnd rest (some (m.getD [] ++ [h])) p)
    ∧ (∀ (f : LayerFlags) (h : MPHit),
        (getDistanceToTrack mag cfg dir tsp h floatMaxQ).1 ≠ .success →
        layerFlagsStep mag cfg dir tsp f h = f) := by
  refine ⟨fun h d0 hu => getDistanceToTrack_unchanged_val mag cfg dir tsp h d0 hu,
    fun sStart sEnd rest m p h hu hc => ?_, fun f h hns => ?_⟩
  · have hv := getDistanceToTrack_unchanged_val mag cfg dir tsp h 0 hu
    simp [mcfGo, hu, hv, hc]
  · simp [layerFlagsStep, hns]

/-- Witness for C10 at a concrete input: the far hit `mpHitFar` yields
`UNCHANGED`, keeps distance 0, is routed to the mip fragment, and is skipped
by the layer-scan flag computation. -/
theorem C10_unchangedHitNotSkipped_witness :
    (getDistanceToTrack qTaxicab mpCfgW (1, 0, 0) (0, 0, 0) mpHitFar 0).2 = 0
    ∧ mcfGo qTaxicab mpCfgW (1, 0, 0) (0, 0, 0) 2 3 [mpHitFar] none none =
        mcfGo qTaxicab mpCfgW (1, 0, 0) (0, 0, 0) 2 3 [] (some [mpHitFar]) none
    ∧ layerFlagsStep qTaxicab mpCfgW (1, 0, 0) (0, 0, 0) ⟨false, false, false⟩ mpHitFar =
        ⟨false, false, false⟩ :=
  ⟨(C10_unchangedHitNotSkipped qTaxicab mpCfgW (1, 0, 0) (0, 0, 0)).1 mpHitFar 0 (by decide),
   (C10_unchangedHitNotSkipped qTaxicab mpCfgW (1, 0, 0) (0, 0, 0)).2.1 2 3 [] none none
     mpHitFar (by decide) (by decide),
   (C10_unchangedHitNotSkipped qTaxicab mpCfgW (1, 0, 0) (0, 0, 0)).2.2
     ⟨false, false, false⟩ mpHitFar (by decide)⟩

/-! ## The energy cap (claim C1): helper lemmas -/

/-- `fcStep` leaves the state unchanged when its guard fails. -/
lemma fcStep_eq_self (st : FCState) (r : TrackDistanceInfo)
    (hno : ¬(fcClusterEnergy st r.trackId < r.trackEnergy ∧ st.avail r.hit.hid = true)) :
    fcStep st r = st := by
  unfold fcStep
  rw [if_neg hno]

/-- `fcStep` adds the record's hit to the record's cluster and clears the
hit's availability when its guard holds. -/
lemma fcStep_add (st : FCState) (r : TrackDistanceInfo)
    (hc : fcClusterEnergy st r.trackId < r.trackEnergy ∧ st.avail r.hit.hid = true) :
    fcStep st r =
      ⟨fun i => if i == r.hit.hid then false else st.avail i,
       (r.trackId, r.hit) :: st.assigned⟩ := by
  unfold fcStep
  rw [if_pos hc]

/-- Prepending an assignment pair extends the member list of exactly the
pair's cluster; the availability component plays no role in membership. -/
lemma fcMembers_cons (av av2 : Nat → Bool) (a : List (Nat × FCHit))
    (tid0 tid : Nat) (h : FCHit) :
    fcMembers ⟨av, (tid0, h) :: a⟩ tid =
      if tid0 = tid then h :: fcMembers ⟨av2, a⟩ tid else fcMembers ⟨av2, a⟩ tid := by
  by_cases ht : tid0 = tid
  · simp [fcMembers, List.filter_cons, ht]
  · simp [fcMembers, List.filter_cons, ht]

/-- One step preserves the energy-cap invariant, given that the record's
stored track energy agrees with the cluster's track energy. -/
lemma fcStep_capOK (tE : Nat → ℚ) (st : FCState) (r : TrackDistanceInfo)
    (hr : r.trackEnergy = tE r.trackId) (hcap : FCCapOK tE st) :
    FCCapOK tE (fcStep st r) := by
  by_cases hc : fcClusterEnergy st r.trackId < r.trackEnergy ∧ st.avail r.hit.hid = true
  · rw [fcStep_add st r hc]
    intro tid h t hmem
    rw [fcMembers_cons _ st.avail] at hmem
    by_cases ht : r.trackId = tid
    · rw [if_pos ht] at hmem
      injection hmem with hh htl
      subst hh
      subst htl
      have hen : fcClusterEnergy ⟨fun i => if i == r.hit.hid then false else st.avail i,
          (r.trackId, r.hit) :: st.assigned⟩ tid =
          r.hit.hadronicEnergy + fcClusterEnergy st tid := by
        unfold fcClusterEnergy
        rw [fcMembers_cons _ st.avail, if_pos ht]
        simp
      rw [hen]
      have := hc.1
      rw [hr, ht] at this
      linarith
    · rw [if_neg ht] at hmem
      have hen : fcClusterEnergy ⟨fun i => if i == r.hit.hid then false else st.avail i,
          (r.trackId, r.hit) :: st.assigned⟩ tid = fcClusterEnergy st tid := by
        unfold fcClusterEnergy
        rw [fcMembers_cons _ st.avail, if_neg ht]
      rw [hen]
      exact hcap tid h t hmem
  · rw [fcStep_eq_self st r hc]
    exact hcap

/-- The walk preserves the energy-cap invariant along a coherent record list. -/
lemma fcWalk_capOK (tE : Nat → ℚ) :
    ∀ (rs : List TrackDistanceInfo) (st : FCState),
      (∀ r ∈ rs, r.trackEnergy = tE r.trackId) →
      FCCapOK tE st → FCCapOK tE (fcWalk rs st) := by
  intro rs
  induction rs with
  | nil => exact fun st _ h => h
  | cons r rs ih =>
    intro st hco hcap
    exact ih (fcStep st r) (fun x hx => hco x (List.mem_cons_of_mem _ hx))
      (fcStep_capOK tE st r (hco r (List.mem_cons_self _ _)) hcap)

/-- Once a cluster's energy has reached its track energy, the rest of the
walk never changes that cluster's membership. -/
lemma fcWalk_frozen (tE : Nat → ℚ) (tid : Nat) :
    ∀ (rs : List TrackDistanceInfo) (st : FCState),
      (∀ r ∈ rs, r.trackEnergy = tE r.trackId) →
      tE tid ≤ fcClusterEnergy st tid →
      fcMembers (fcWalk rs st) tid = fcMembers st tid := by
  intro rs
  induction rs with
  | nil => exact fun st _ _ => rfl
  | cons r rs ih =>
    intro st hco hge
    have hco' : ∀ x ∈ rs, x.trackEnergy = tE x.trackId :=
      fun x hx => hco x (List.mem_cons_of_mem _ hx)
    have hstep : fcWalk (r :: rs) st = fcWalk rs (fcStep st r) := rfl
    by_cases hc : fcClusterEnergy st r.trackId < r.trackEnergy ∧ st.avail r.hit.hid = true
    · have hne : r.trackId ≠ tid := by
        intro he
        have := hc.1
        rw [hco r (List.mem_cons_self _ _), he] at this
        exact absurd this (not_lt.mpr hge)
      have hmem_eq : fcMembers (fcStep st r) tid = fcMembers st tid := by
        rw [fcStep_add st r hc, fcMembers_cons _ st.avail, if_neg hne]
      have hen_eq : fcClusterEnergy (fcStep st r) tid = fcClusterEnergy st tid := by
        unfold fcClusterEnergy
        rw [hmem_eq]
      rw [hstep, ih (fcStep st r) hco' (hen_eq ▸ hge), hmem_eq]
    · rw [hstep, fcStep_eq_self st r hc]
      exact ih st hco' hge

/-- Every record produced by the record-collection loop stems from a track in
the list, with matching cluster id and track energy. -/
lemma fcRecords_mem (helixDist : Nat → Nat → ℚ) (cfg : FCConfig)
    (avail : Nat → Bool) (tracks : List FCTrack) (hits : List FCHit)
    (r : TrackDistanceInfo) (hr : r ∈ fcRecords helixDist cfg avail tracks hits) :
    ∃ t ∈ tracks, r.trackId = t.tid ∧ r.trackEnergy = t.energyAtDca := by
  unfold fcRecords at hr
  rw [List.mem_flatten] at hr
  obtain ⟨l, hl, hrl⟩ := hr
  rw [List.mem_map] at hl
  obtain ⟨t, ht, rfl⟩ := hl
  unfold fcRecordsForTrack at hrl
  rw [List.mem_map] at hrl
  obtain ⟨h, _, rfl⟩ := hrl
  exact ⟨t, ht, rfl, rfl⟩

/-- With duplicate-free track ids, `fcTrackEnergy` recovers each track's DCA
energy. -/
lemma fcTrackEnergy_of_mem (tracks : List FCTrack)
    (hnd : (tracks.map FCTrack.tid).Nodup) (t : FCTrack) (ht : t ∈ tracks) :
    fcTrackEnergy tracks t.tid = t.energyAtDca := by
  induction tracks with
  | nil => cases ht
  | cons t0 ts ih =>
    rw [List.map_cons, List.nodup_cons] at hnd
    rcases List.mem_cons.mp ht with rfl | hmem
    · simp [fcTrackEnergy]
    · have hne : ¬((t0.tid == t.tid) = true) := by
        simp only [beq_iff_eq]
        intro he
        exact hnd.1 (he ▸ List.mem_map_of_mem FCTrack.tid hmem)
      have hstep : fcTrackEnergy (t0 :: ts) t.tid = fcTrackEnergy ts t.tid := by
        simp [fcTrackEnergy, hne]
      rw [hstep]
      exact ih hnd.2 hmem

/-- The sorted record list is coherent with `fcTrackEnergy` when track ids
are duplicate-free. -/
lemma fcSortedRecords_coherent (helixDist : Nat → Nat → ℚ) (cfg : FCConfig)
    (tracks : List FCTrack) (hits : List FCHit) (avail0 : Nat → Bool)
    (hnd : (tracks.map FCTrack.tid).Nodup) :
    ∀ r ∈ fcSortedRecords helixDist cfg tracks hits avail0,
      r.trackEnergy = fcTrackEnergy tracks r.trackId := by
  intro r hr
  have hr' : r ∈ fcRecords helixDist cfg avail0 tracks hits :=
    (List.mem_insertionSort DistLE).mp hr
  obtain ⟨t, ht, hid, hen⟩ := fcRecords_mem helixDist cfg avail0 tracks hits r hr'
  rw [hen, hid, fcTrackEnergy_of_mem tracks hnd t ht]

/-- Claim C1: a hit is added only while the cluster's energy is strictly
below its track's DCA energy; consequently every track-seeded cluster ends
the pass empty or with an energy exceeding its track energy by less than the
last-added hit's energy, and no hit is added to a cluster once its cap is
reached. -/
theorem C1_energyCapStoppingRule :
    (∀ (st : FCState) (r : TrackDistanceInfo),
        ¬fcClusterEnergy st r.trackId < r.trackEnergy → fcStep st r = st)
    ∧ (∀ (tE : Nat → ℚ) (rs : List TrackDistanceInfo) (avail0 : Nat → Bool),
        (∀ r ∈ rs, r.trackEnergy = tE r.trackId) →
        FCCapOK tE (fcWalk rs ⟨avail0, []⟩))
    ∧ (∀ (tE : Nat → ℚ) (tid : Nat) (rs : List TrackDistanceInfo) (st : FCState),
        (∀ r ∈ rs, r.trackEnergy = tE r.trackId) →
        tE tid ≤ fcClusterEnergy st tid →
        fcMembers (fcWalk rs st) tid = fcMembers st tid)
    ∧ (∀ (helixDist : Nat → Nat → ℚ) (cfg : FCConfig) (tracks : List FCTrack)
          (hits : List FCHit) (avail0 : Nat → Bool),
        (tracks.map FCTrack.tid).Nodup →
        FCCapOK (fcTrackEnergy tracks) (fcFinalState helixDist cfg tracks hits avail0)) := by
  refine ⟨fun st r hno => fcStep_eq_self st r (fun hand => hno hand.1),
    fun tE rs avail0 hco => ?_, fun tE tid rs st hco hge => fcWalk_frozen tE tid rs st hco hge,
    fun helixDist cfg tracks hits avail0 hnd => ?_⟩
  · refine fcWalk_capOK tE rs ⟨avail0, []⟩ hco ?_
    intro tid h t hmem
    simp [fcMembers] at hmem
  · refine fcWalk_capOK (fcTrackEnergy tracks) _ ⟨avail0, []⟩
      (fcSortedRecords_coherent helixDist cfg tracks hits avail0 hnd) ?_
    intro tid h t hmem
    simp [fcMembers] at hmem

/-- Witness for C1 at a concrete input (the spec's Scenario A): one track of
energy 1 and one hit of energy 1 at distance 0. -/
theorem C1_energyCapStoppingRule_witness :
    fcStep ⟨fun _ => true, []⟩ ⟨fcHitW, 1, 0, 0⟩ = ⟨fun _ => true, []⟩
    ∧ FCCapOK (fun _ => 1) (fcWalk [⟨fcHitW, 1, 1, 0⟩] ⟨fun _ => true, []⟩)
    ∧ fcMembers (fcWalk [⟨fcHitW, 1, 1, 0⟩] ⟨fun _ => true, [(1, fcHitW)]⟩) 1 =
        fcMembers ⟨fun _ => true, [(1, fcHitW)]⟩ 1
    ∧ FCCapOK (fcTrackEnergy [fcTrackW1])
        (fcFinalState fcDistZero fcCfgW [fcTrackW1] [fcHitW] (fun _ => true)) :=
  ⟨C1_energyCapStoppingRule.1 ⟨fun _ => true, []⟩ ⟨fcHitW, 1, 0, 0⟩ (by decide),
   C1_energyCapStoppingRule.2.1 (fun _ => 1) [⟨fcHitW, 1, 1, 0⟩] (fun _ => true)
     (by decide),
   C1_energyCapStoppingRule.2.2.1 (fun _ => 1) 1 [⟨fcHitW, 1, 1, 0⟩]
     ⟨fun _ => true, [(1, fcHitW)]⟩ (by decide) (by decide),
   C1_energyCapStoppingRule.2.2.2 fcDistZero fcCfgW [fcTrackW1] [fcHitW]
     (fun _ => true) (by decide)⟩

/-! ## The region transition (claim C5): helper lemmas -/

/-- One scan step preserves the `mipRegion1` reachability invariant. -/
lemma scanStep_mipInv (cfg : MPConfig) (st : ScanState) (l : Nat) (f : LayerFlags)
    (hinv : MipRegion1Inv st) : MipRegion1Inv (scanStep cfg st l f) := by
  intro hm1'
  by_cases hm1 : st.mipRegion1 = true
  · obtain ⟨hm2, hsr, hend⟩ := hinv hm1
    cases hmf : f.mipTrackHitFound <;> cases hsf : f.showerTrackHitFound <;>
      by_cases hth : st.showerCount + 1 = cfg.nLayersForShowerRegion <;>
        simp_all [scanStep]
  · rw [Bool.not_eq_true] at hm1
    simp_all [scanStep]

/-- The scan loop preserves the `mipRegion1` reachability invariant. -/
lemma scanLoop_mipInv (mag : Vec3 → ℚ) (cfg : MPConfig) (dir tsp : Vec3)
    (hs : List MPHit) :
    ∀ (layers : List Nat) (st : ScanState), MipRegion1Inv st →
      MipRegion1Inv (scanLoop mag cfg dir tsp hs layers st) := by
  intro layers
  induction layers with
  | nil => exact fun st h => h
  | cons l rest ih =>
    intro st hinv
    simp only [scanLoop]
    split
    · exact ih _ (scanStep_mipInv cfg st l _ hinv)
    · exact hinv

/-- The final scan state satisfies the `mipRegion1` reachability invariant. -/
lemma runScan_mipInv (mag : Vec3 → ℚ) (cfg : MPConfig) (c : MPCluster)
    (tsp : Vec3) : MipRegion1Inv (runScan mag cfg c tsp) :=
  scanLoop_mipInv mag cfg c.initialDirection tsp c.caloHits _ scanInit
    (fun _ => ⟨rfl, rfl, rfl⟩)

/-- With the sentinel still in `mipRegion2EndLayer`, the decision block
refuses to fragment. -/
lemma decision_false_of_sentinel (cfg : MPConfig) (st : ScanState)
    (h : st.mipRegion2EndLayer = LAYER_MAX) :
    shouldFragmentDecision cfg st = false := by
  simp [shouldFragmentDecision, h]

/-- Claim C5: while in `mipRegion1`, a shower-only layer increments the
shower streak, a mip-only layer resets it, and the transition to
`showerRegion` happens exactly when the incremented streak first equals
`NLayersForShowerRegion`; if `mipRegion1` survives the whole scan,
`ShouldFragmentCluster` returns false. -/
theorem C5_regionTransitionThreshold (cfg : MPConfig) (st : ScanState)
    (l : Nat) (f : LayerFlags) :
    (st.mipRegion1 = true → st.mipRegion2 = false → st.showerRegion = false →
      (((scanStep cfg st l f).mipRegion1 = false ∧
          (scanStep cfg st l f).showerRegion = true) ↔
        (f.mipTrackHitFound = false ∧ f.showerTrackHitFound = true ∧
          st.showerCount + 1 = cfg.nLayersForShowerRegion)))
    ∧ (st.mipRegion1 = true →
        f.mipTrackHitFound = false → f.showerTrackHitFound = true →
        st.showerCount + 1 ≠ cfg.nLayersForShowerRegion →
        (scanStep cfg st l f).showerCount = st.showerCount + 1 ∧
          (scanStep cfg st l f).mipRegion1 = true)
    ∧ (st.mipRegion1 = true →
        f.mipTrackHitFound = true → f.showerTrackHitFound = false →
        (scanStep cfg st l f).showerCount = 0)
    ∧ (∀ (mag : Vec3 → ℚ) (c : MPCluster) (tsp : Vec3),
        (runScan mag cfg c tsp).mipRegion1 = true →
        (shouldFragmentCluster mag cfg c tsp).1 = false) := by
  refine ⟨?_, ?_, ?_, ?_⟩
  · intro hm1 hm2 hsr
    constructor
    · intro hlhs
      by_cases hth : st.showerCount + 1 = cfg.nLayersForShowerRegion <;>
        cases hmf : f.mipTrackHitFound <;> cases hsf : f.showerTrackHitFound <;>
          simp_all [scanStep]
    · rintro ⟨hmf, hsf, hth⟩
      simp_all [scanStep]
  · intro hm1 hmf hsf hth
    simp_all [scanStep]
  · intro hm1 hmf hsf
    by_cases hth : st.showerCount + 1 = cfg.nLayersForShowerRegion <;>
      by_cases hsr : st.showerRegion = true <;>
        by_cases hmc : st.mipCount + 1 = cfg.nLayersForMipRegion <;>
          simp_all [scanStep]
  · intro mag c tsp hm1
    obtain ⟨_, _, hend⟩ := runScan_mipInv mag cfg c tsp hm1
    simp only [shouldFragmentCluster]
    exact decision_false_of_sentinel cfg _ hend

/-- Witness for C5 at concrete inputs: the transition fires exactly at streak
2, an intermediate shower layer increments, a mip layer resets, and the
alternating cluster of Scenario C is never fragmented. -/
theorem C5_regionTransitionThreshold_witness :
    ((scanStep mpCfgW scanStW 3 ⟨true, false, true⟩).mipRegion1 = false ∧
      (scanStep mpCfgW scanStW 3 ⟨true, false, true⟩).showerRegion = true)
    ∧ (scanStep mpCfgW scanInit 2 ⟨true, false, true⟩).showerCount = 1
    ∧ (scanStep mpCfgW scanStW 3 ⟨true, true, false⟩).showerCount = 0
    ∧ (shouldFragmentCluster qTaxicab mpCfgW mpAltCluster (0, 0, 0)).1 = false :=
  ⟨((C5_regionTransitionThreshold mpCfgW scanStW 3 ⟨true, false, true⟩).1
      rfl rfl rfl).mpr ⟨rfl, rfl, by decide⟩,
   ((C5_regionTransitionThreshold mpCfgW scanInit 2 ⟨true, false, true⟩).2.1
      rfl rfl rfl (by decide)).1,
   (C5_regionTransitionThreshold mpCfgW scanStW 3 ⟨true, true, false⟩).2.2.1
      rfl rfl rfl,
   (C5_regionTransitionThreshold mpCfgW scanInit 1 ⟨false, false, false⟩).2.2.2
      qTaxicab mpAltCluster (0, 0, 0) (by decide)⟩

/-! ## Hit exclusivity (claim C2): helper lemmas -/

/-- One walk step preserves the availability invariant. -/
lemma fcStep_availInv (st : FCState) (r : TrackDistanceInfo)
    (hinv : AvailInv st) : AvailInv (fcStep st r) := by
  by_cases hc : fcClusterEnergy st r.trackId < r.trackEnergy ∧ st.avail r.hit.hid = true
  · rw [fcStep_add st r hc]
    intro i
    have hcnt : countAssigned
        ⟨fun j => if j == r.hit.hid then false else st.avail j,
         (r.trackId, r.hit) :: st.assigned⟩ i =
        countAssigned st i + (if (r.hit.hid == i) = true then 1 else 0) := by
      simp [countAssigned, List.countP_cons]
    by_cases hi : r.hit.hid = i
    · subst hi
      have h0 : countAssigned st r.hit.hid = 0 := (hinv r.hit.hid).2 hc.2
      refine ⟨by rw [hcnt, h0]; simp, ?_⟩
      intro hav
      simp at hav
    · have hzero : (if (r.hit.hid == i) = true then 1 else 0) = 0 := by simp [hi]
      refine ⟨?_, ?_⟩
      · rw [hcnt, hzero]
        have := (hinv i).1
        omega
      · intro hav
        have hav' : st.avail i = true := by
          have hne : (i == r.hit.hid) = false := by
            rw [beq_eq_false_iff_ne]
            exact fun he => hi he.symm
          simpa [hne] using hav
        rw [hcnt, (hinv i).2 hav', hzero]
  · rw [fcStep_eq_self st r hc]
    exact hinv

/-- The walk preserves the availability invariant. -/
lemma fcWalk_availInv :
    ∀ (rs : List TrackDistanceInfo) (st : FCState),
      AvailInv st → AvailInv (fcWalk rs st) := by
  intro rs
  induction rs with
  | nil => exact fun st h => h
  | cons r rs ih => exact fun st hinv => ih (fcStep st r) (fcStep_availInv st r hinv)

/-- Summing a constant-zero map gives zero. -/
lemma sum_map_zero {α : Type} (l : List α) : (l.map (fun _ => (0 : Nat))).sum = 0 := by
  induction l <;> simp_all

/-- A map of pointwise sums splits into two sums. -/
lemma sum_map_add {α : Type} (l : List α) (f g : α → Nat) :
    (l.map (fun x => f x + g x)).sum = (l.map f).sum + (l.map g).sum := by
  induction l with
  | nil => rfl
  | cons a t ih =>
    simp only [List.map_cons, List.sum_cons, ih]
    omega

/-- Over duplicate-free cluster ids, the indicators of a single assignment
pair sum to at most one. -/
lemma sum_indicator_le (a : Nat) (c : Bool) :
    ∀ (tids : List Nat), tids.Nodup →
      (tids.map (fun tid => if (c && (a == tid)) = true then 1 else 0)).sum ≤
        (if c = true then 1 else 0) := by
  intro tids
  induction tids with
  | nil => intro _; simp
  | cons t0 ts ih =>
    intro hnd
    rw [List.nodup_cons] at hnd
    simp only [List.map_cons, List.sum_cons]
    by_cases ha : a = t0
    · subst ha
      have htail : (ts.map (fun tid => if (c && (a == tid)) = true then 1 else 0)).sum = 0 := by
        apply List.sum_eq_zero
        intro x hx
        rw [List.mem_map] at hx
        obtain ⟨tid, htid, rfl⟩ := hx
        have hne : a ≠ tid := fun he => hnd.1 (he ▸ htid)
        simp [hne]
      rw [htail]
      cases c <;> simp
    · have hhead : (if (c && (a == t0)) = true then 1 else 0) = 0 := by simp [ha]
      rw [hhead]
      have := ih hnd.2
      omega

/-- Partitioning the assignment count over duplicate-free cluster ids never
exceeds the total count for the hit id. -/
lemma sum_countP_tid_le (i : Nat) :
    ∀ (l : List (Nat × FCHit)) (tids : List Nat), tids.Nodup →
      (tids.map (fun tid => l.countP (fun p => p.2.hid == i && p.1 == tid))).sum ≤
        l.countP (fun p => p.2.hid == i) := by
  intro l
  induction l with
  | nil =>
    intro tids _
    simp only [List.countP_nil]
    rw [sum_map_zero]
  | cons p l ih =>
    intro tids hnd
    rw [List.countP_cons]
    have hrw : tids.map (fun tid => (p :: l).countP (fun q => q.2.hid == i && q.1 == tid)) =
        tids.map (fun tid => l.countP (fun q => q.2.hid == i && q.1 == tid) +
          (if ((p.2.hid == i) && (p.1 == tid)) = true then 1 else 0)) := by
      apply List.map_congr_left
      intro tid _
      rw [List.countP_cons]
    rw [hrw, sum_map_add]
    exact Nat.add_le_add (ih tids hnd) (sum_indicator_le p.1 (p.2.hid == i) tids hnd)

/-- Filtering a list can only reduce a sum of naturals mapped over it. -/
lemma sum_map_filter_le {β : Type} (m : List β) (q : β → Bool) (f : β → Nat) :
    ((m.filter q).map f).sum ≤ (m.map f).sum := by
  induction m with
  | nil => simp
  | cons b m ih =>
    rw [List.filter_cons]
    by_cases hq : q b = true
    · rw [if_pos hq]
      simp only [List.map_cons, List.sum_cons]
      exact Nat.add_le_add_left ih _
    · rw [if_neg hq]
      simp only [List.map_cons, List.sum_cons]
      exact le_trans ih (Nat.le_add_left _ _)

/-- A cluster's member count for a hit id is the assignment count restricted
to that cluster. -/
lemma countP_fcMembers (st : FCState) (tid i : Nat) :
    (fcMembers st tid).countP (fun h => h.hid == i) =
      st.assigned.countP (fun p => p.2.hid == i && p.1 == tid) := by
  unfold fcMembers
  rw [List.countP_map, List.countP_filter]
  rfl

/-- With duplicate-free hit ids, at most one input hit carries any given id. -/
lemma countP_hid_le_one (hits : List FCHit)
    (hnd : (hits.map FCHit.hid).Nodup) (i : Nat) :
    hits.countP (fun h => h.hid == i) ≤ 1 := by
  induction hits with
  | nil => simp
  | cons h t ih =>
    rw [List.map_cons, List.nodup_cons] at hnd
    rw [List.countP_cons]
    by_cases hi : h.hid = i
    · have ht0 : t.countP (fun h => h.hid == i) = 0 := by
        rw [List.countP_eq_zero]
        intro a ha
        simp only [beq_iff_eq]
        intro he
        exact hnd.1 (by rw [hi, ← he]; exact List.mem_map_of_mem FCHit.hid ha)
      rw [ht0]
      simp [hi]
    · have := ih hnd.2
      simp only [beq_iff_eq]
      rw [if_neg hi]
      omega

/-- Every remnant hit is still available after the walk. -/
lemma remnant_avail (cfg : FCConfig) (avail : Nat → Bool) (hits : List FCHit)
    (h : FCHit) (hh : h ∈ fcRemnantHits cfg avail hits) : avail h.hid = true := by
  unfold fcRemnantHits at hh
  rw [List.mem_filter] at hh
  have := hh.2
  simp only [fcHitEligible, Bool.and_eq_true] at this
  exact this.1

/-- The total occurrence count of a hit id over the run result is at most
one, given duplicate-free hit and track ids. -/
lemma fcCountHit_le_one (helixDist : Nat → Nat → ℚ) (cfg : FCConfig)
    (tracks : List FCTrack) (hits : List FCHit) (avail0 : Nat → Bool)
    (hndh : (hits.map FCHit.hid).Nodup) (hndt : (tracks.map FCTrack.tid).Nodup)
    (i : Nat) :
    fcCountHit (forcedClusteringRun helixDist cfg tracks hits avail0) i ≤ 1 := by
  cases hdec : (tracks.isEmpty || hits.isEmpty) with
  | true => simp [forcedClusteringRun, hdec, fcCountHit]
  | false =>
    have hres : forcedClusteringRun helixDist cfg tracks hits avail0 =
        ⟨.success,
         (tracks.map (fun t =>
            (t.tid, fcMembers (fcFinalState helixDist cfg tracks hits avail0) t.tid))).filter
           (fun p => !p.2.isEmpty),
         (if cfg.shouldRunStandardClusteringAlgorithm ||
              (if cfg.shouldRunStandardClusteringAlgorithm then []
               else fcRemnantHits cfg
                 (fcFinalState helixDist cfg tracks hits avail0).avail hits).isEmpty then none
          else some (if cfg.shouldRunStandardClusteringAlgorithm then []
            else fcRemnantHits cfg
              (fcFinalState helixDist cfg tracks hits avail0).avail hits)),
         (fcFinalState helixDist cfg tracks hits avail0).avail⟩ := by
      unfold forcedClusteringRun
      rw [hdec]
      rfl
    rw [hres]
    set st := fcFinalState helixDist cfg tracks hits avail0 with hst
    have hinv : AvailInv st :=
      fcWalk_availInv _ ⟨avail0, []⟩ (fun _ => ⟨Nat.zero_le 1, fun _ => rfl⟩)
    -- the cluster part is bounded by the assignment count
    have hcluster :
        (((tracks.map (fun t => (t.tid, fcMembers st t.tid))).filter
            (fun p => !p.2.isEmpty)).map
          (fun p => p.2.countP (fun h => h.hid == i))).sum ≤ countAssigned st i := by
      refine le_trans (sum_map_filter_le _ _ _) ?_
      rw [List.map_map]
      have hpt : (tracks.map
            ((fun p => p.2.countP (fun h => h.hid == i)) ∘
              (fun t => (t.tid, fcMembers st t.tid)))) =
          (tracks.map FCTrack.tid).map
            (fun tid => st.assigned.countP (fun p => p.2.hid == i && p.1 == tid)) := by
        rw [List.map_map]
        apply List.map_congr_left
        intro t _
        exact countP_fcMembers st t.tid i
      rw [hpt]
      exact sum_countP_tid_le i st.assigned (tracks.map FCTrack.tid) hndt
    -- the remnant part is bounded by the remnant list's count
    set rlist : List FCHit :=
      if cfg.shouldRunStandardClusteringAlgorithm then []
      else fcRemnantHits cfg st.avail hits with hrl
    have hremle :
        (((if (cfg.shouldRunStandardClusteringAlgorithm || rlist.isEmpty) = true
            then (none : Option (List FCHit)) else some rlist).getD []).countP
          (fun h => h.hid == i)) ≤ rlist.countP (fun h => h.hid == i) := by
      split
      · simp
      · simp
    show (((tracks.map (fun t => (t.tid, fcMembers st t.tid))).filter
          (fun p => !p.2.isEmpty)).map
          (fun p => p.2.countP (fun h => h.hid == i))).sum +
        (((if (cfg.shouldRunStandardClusteringAlgorithm || rlist.isEmpty) = true
            then (none : Option (List FCHit)) else some rlist).getD []).countP
          (fun h => h.hid == i)) ≤ 1
    by_cases hpos : 0 < rlist.countP (fun h => h.hid == i)
    · have hfl : rlist = fcRemnantHits cfg st.avail hits := by
        by_cases hflag : cfg.shouldRunStandardClusteringAlgorithm = true
        · rw [hrl, if_pos hflag] at hpos
          simp at hpos
        · rw [hrl, if_neg hflag]
      obtain ⟨h, hh, hhid⟩ := List.countP_pos_iff.mp hpos
      have hav : st.avail i = true := by
        rw [beq_iff_eq] at hhid
        rw [← hhid]
        exact remnant_avail cfg st.avail hits h (hfl ▸ hh)
      have hzero : countAssigned st i = 0 := (hinv i).2 hav
      have hrem1 : rlist.countP (fun h => h.hid == i) ≤ 1 := by
        rw [hfl]
        exact le_trans (List.Sublist.countP_le _ (List.filter_sublist hits))
          (countP_hid_le_one hits hndh i)
      omega
    · have hr0 : rlist.countP (fun h => h.hid == i) = 0 := by omega
      have := (hinv i).1
      omega

/-- Claim C2: each hit ends the pass in at most one cluster (track-seeded
clusters and the remnant cluster together); only available hits are recorded
as candidates, and adding a hit clears its availability flag. -/
theorem C2_hitExclusivity :
    (∀ (helixDist : Nat → Nat → ℚ) (cfg : FCConfig) (tracks : List FCTrack)
        (hits : List FCHit) (avail0 : Nat → Bool),
      (hits.map FCHit.hid).Nodup → (tracks.map FCTrack.tid).Nodup →
      ∀ i, fcCountHit (forcedClusteringRun helixDist cfg tracks hits avail0) i ≤ 1)
    ∧ (∀ (helixDist : Nat → Nat → ℚ) (cfg : FCConfig) (avail0 : Nat → Bool)
          (tracks : List FCTrack) (hits : List FCHit),
        ∀ r ∈ fcRecords helixDist cfg avail0 tracks hits, avail0 r.hit.hid = true)
    ∧ (∀ (st : FCState) (r : TrackDistanceInfo),
        fcClusterEnergy st r.trackId < r.trackEnergy → st.avail r.hit.hid = true →
        (fcStep st r).avail r.hit.hid = false) := by
  refine ⟨fun helixDist cfg tracks hits avail0 hndh hndt i =>
      fcCountHit_le_one helixDist cfg tracks hits avail0 hndh hndt i,
    ?_, ?_⟩
  · intro helixDist cfg avail0 tracks hits r hr
    unfold fcRecords at hr
    rw [List.mem_flatten] at hr
    obtain ⟨l, hl, hrl⟩ := hr
    rw [List.mem_map] at hl
    obtain ⟨t, _, rfl⟩ := hl
    unfold fcRecordsForTrack at hrl
    rw [List.mem_map] at hrl
    obtain ⟨h, hh, rfl⟩ := hrl
    rw [List.mem_filter] at hh
    have := hh.2
    simp only [fcHitEligible, Bool.and_eq_true] at this
    exact this.1
  · intro st r h1 h2
    rw [fcStep_add st r ⟨h1, h2⟩]
    simp

/-- Witness for C2 at a concrete input: two tracks contending for one hit. -/
theorem C2_hitExclusivity_witness :
    fcCountHit (forcedClusteringRun fcDistZero fcCfgW [fcTrackW1, fcTrackW2]
      [fcHitW] (fun _ => true)) 7 ≤ 1
    ∧ (fun _ => true : Nat → Bool) fcHitW.hid = true
    ∧ (fcStep ⟨fun _ => true, []⟩ ⟨fcHitW, 1, 1, 0⟩).avail fcHitW.hid = false :=
  ⟨C2_hitExclusivity.1 fcDistZero fcCfgW [fcTrackW1, fcTrackW2] [fcHitW]
      (fun _ => true) (by decide) (by decide) 7,
   C2_hitExclusivity.2.1 fcDistZero fcCfgW (fun _ => true) [fcTrackW1, fcTrackW2]
      [fcHitW] ⟨fcHitW, 1, 1, 0⟩ (by decide),
   C2_hitExclusivity.2.2 ⟨fun _ => true, []⟩ ⟨fcHitW, 1, 1, 0⟩ (by decide) rfl⟩

/-! ## Fragmentation round trip (claim C3): helper lemmas -/

/-- On a successful walk, `mcfGo` appends to the mip fragment exactly the
hits passing the routing test and to the photon fragment exactly the rest. -/
lemma mcfGo_success (mag : Vec3 → ℚ) (cfg : MPConfig) (dir tsp : Vec3)
    (sS sE : Nat) :
    ∀ (hs : List MPHit) (m p : Option (List MPHit)),
      (mcfGo mag cfg dir tsp sS sE hs m p).1 = .success →
      (mcfGo mag cfg dir tsp sS sE hs m p).2.1.getD [] =
          m.getD [] ++ hs.filter (mcfRouteToMip mag cfg dir tsp sS sE) ∧
        (mcfGo mag cfg dir tsp sS sE hs m p).2.2.getD [] =
          p.getD [] ++ hs.filter (fun h => !(mcfRouteToMip mag cfg dir tsp sS sE h)) := by
  intro hs
  induction hs with
  | nil =>
    intro m p _
    simp [mcfGo]
  | cons h rest ih =>
    intro m p hsucc
    by_cases hfail : (getDistanceToTrack mag cfg dir tsp h 0).1 ≠ .success ∧
        (getDistanceToTrack mag cfg dir tsp h 0).1 ≠ .unchanged
    · have hres : (mcfGo mag cfg dir tsp sS sE (h :: rest) m p).1 =
          (getDistanceToTrack mag cfg dir tsp h 0).1 := by
        simp [mcfGo, hfail]
      rw [hres] at hsucc
      exact absurd hsucc hfail.1
    · by_cases hroute : (getDistanceToTrack mag cfg dir tsp h 0).2 < cfg.genericDistanceCut ∨
          h.layer < sS ∨ sE < h.layer
      · have hstep : mcfGo mag cfg dir tsp sS sE (h :: rest) m p =
            mcfGo mag cfg dir tsp sS sE rest (some (m.getD [] ++ [h])) p := by
          simp [mcfGo, hfail, hroute]
        have hbool : mcfRouteToMip mag cfg dir tsp sS sE h = true := by
          simp only [mcfRouteToMip, Bool.or_eq_true, decide_eq_true_eq]
          tauto
        rw [hstep] at hsucc ⊢
        obtain ⟨h1, h2⟩ := ih (some (m.getD [] ++ [h])) p hsucc
        constructor
        · rw [h1, List.filter_cons, if_pos hbool]
          simp
        · rw [h2, List.filter_cons]
          simp [hbool]
      · have hstep : mcfGo mag cfg dir tsp sS sE (h :: rest) m p =
            mcfGo mag cfg dir tsp sS sE rest m (some (p.getD [] ++ [h])) := by
          simp [mcfGo, hfail, hroute]
        have hbool : mcfRouteToMip mag cfg dir tsp sS sE h = false := by
          simp only [mcfRouteToMip, Bool.or_eq_false_iff, decide_eq_false_iff_not]
          tauto
        rw [hstep] at hsucc ⊢
        obtain ⟨h1, h2⟩ := ih m (some (p.getD [] ++ [h])) hsucc
        constructor
        · rw [h1, List.filter_cons, if_neg (by simp [hbool])]
        · rw [h2, List.filter_cons]
          simp [hbool]

/-- Claim C3 (amended): when `MakeClusterFragments` returns `SUCCESS`, the
mip fragment holds exactly the hits passing the routing rule (distance below
the generic cut or layer outside the shower range), the photon fragment holds
exactly the rest, and together the fragments are a permutation of the
cluster's combined ordinary and isolated hits. -/
theorem C3_fragmentRoundTrip (mag : Vec3 → ℚ) (cfg : MPConfig) (c : MPCluster)
    (tsp : Vec3) (sS sE : Nat)
    (hsucc : (makeClusterFragments mag cfg c tsp sS sE).1 = .success) :
    (makeClusterFragments mag cfg c tsp sS sE).2.1.getD [] =
        (mcfSequence c).filter (mcfRouteToMip mag cfg c.initialDirection tsp sS sE)
    ∧ (makeClusterFragments mag cfg c tsp sS sE).2.2.getD [] =
        (mcfSequence c).filter
          (fun h => !(mcfRouteToMip mag cfg c.initialDirection tsp sS sE h))
    ∧ ((makeClusterFragments mag cfg c tsp sS sE).2.1.getD [] ++
        (makeClusterFragments mag cfg c tsp sS sE).2.2.getD []).Perm
      (mpCombinedHits c) := by
  have h := mcfGo_success mag cfg c.initialDirection tsp sS sE (mcfSequence c)
    none none hsucc
  have h1 : (makeClusterFragments mag cfg c tsp sS sE).2.1.getD [] =
      (mcfSequence c).filter (mcfRouteToMip mag cfg c.initialDirection tsp sS sE) := by
    simpa [makeClusterFragments] using h.1
  have h2 : (makeClusterFragments mag cfg c tsp sS sE).2.2.getD [] =
      (mcfSequence c).filter
        (fun h => !(mcfRouteToMip mag cfg c.initialDirection tsp sS sE h)) := by
    simpa [makeClusterFragments] using h.2
  refine ⟨h1, h2, ?_⟩
  rw [h1, h2]
  exact (List.filter_append_perm _ _).trans (List.perm_insertionSort LayerLE _)

/-- Witness for C3 at a concrete input: a successful fragmentation whose
fragments repartition the cluster's hits. -/
theorem C3_fragmentRoundTrip_witness :
    (makeClusterFragments qTaxicab mpCfgW mpAltCluster (0, 0, 0) 2 3).1 = .success
    ∧ ((makeClusterFragments qTaxicab mpCfgW mpAltCluster (0, 0, 0) 2 3).2.1.getD [] ++
        (makeClusterFragments qTaxicab mpCfgW mpAltCluster (0, 0, 0) 2 3).2.2.getD []).Perm
      (mpCombinedHits mpAltCluster) :=
  ⟨by decide,
   (C3_fragmentRoundTrip qTaxicab mpCfgW mpAltCluster (0, 0, 0) 2 3 (by decide)).2.2⟩

/-- Counterexample for C3 as stated: on `mpCexCluster` the walk fails at its
third hit (zero cut width) after both fragments were created, so both
fragments are non-null yet their union misses a hit of the original cluster. -/
theorem C3_fragmentRoundTrip_counterexample :
    (makeClusterFragments qTaxicab mpCfgW mpCexCluster (0, 0, 0) 2 3).2.1 ≠ none
    ∧ (makeClusterFragments qTaxicab mpCfgW mpCexCluster (0, 0, 0) 2 3).2.2 ≠ none
    ∧ ¬(((makeClusterFragments qTaxicab mpCfgW mpCexCluster (0, 0, 0) 2 3).2.1.getD [] ++
          (makeClusterFragments qTaxicab mpCfgW mpCexCluster (0, 0, 0) 2 3).2.2.getD []).Perm
        (mpCombinedHits mpCexCluster)) := by
  refine ⟨by decide, by decide, by decide⟩

/-! ## Sort determinism (claim C8): helper lemmas -/

/-- Two sorted permutations of each other coincide once no two distinct
records share a distance. -/
lemma sorted_perm_unique :
    ∀ (l₁ l₂ : List TrackDistanceInfo), l₁.Perm l₂ →
      l₁.Sorted DistLE → l₂.Sorted DistLE →
      (∀ a ∈ l₁, ∀ b ∈ l₁, a.distanceToTrack = b.distanceToTrack → a = b) →
      l₁ = l₂ := by
  intro l₁
  induction l₁ with
  | nil =>
    intro l₂ hperm _ _ _
    exact (hperm.symm.eq_nil).symm
  | cons a t ih =>
    intro l₂ hperm hs1 hs2 hinj
    cases l₂ with
    | nil => cases hperm.eq_nil
    | cons b t' =>
      have hab : a = b := by
        have hamem : a ∈ b :: t' := hperm.mem_iff.mp (List.mem_cons_self a t)
        have hbmem : b ∈ a :: t := hperm.mem_iff.mpr (List.mem_cons_self b t')
        rcases List.mem_cons.mp hamem with h1 | h1
        · exact h1
        rcases List.mem_cons.mp hbmem with h2 | h2
        · exact h2.symm
        have hle1 : DistLE a b := (List.sorted_cons.mp hs1).1 b h2
        have hle2 : DistLE b a := (List.sorted_cons.mp hs2).1 a h1
        exact hinj a (List.mem_cons_self a t) b (List.mem_cons_of_mem a h2)
          (le_antisymm hle1 hle2)
      subst hab
      have := ih t' hperm.cons_inv (List.sorted_cons.mp hs1).2 (List.sorted_cons.mp hs2).2
        (fun x hx y hy hxy =>
          hinj x (List.mem_cons_of_mem a hx) y (List.mem_cons_of_mem a hy) hxy)
      rw [this]

/-- Claim C8 (amended): the model's stable sort is one admissible outcome of
the `std::sort` call (a sorted permutation of the records); and whenever no
two records tie on distance, all admissible sort outcomes coincide, so the
greedy walk's result is uniquely determined by the inputs. -/
theorem C8_sortDeterminism (helixDist : Nat → Nat → ℚ) (cfg : FCConfig)
    (tracks : List FCTrack) (hits : List FCHit) (avail0 : Nat → Bool) :
    IsStdSortResult (fcRecords helixDist cfg avail0 tracks hits)
      (fcSortedRecords helixDist cfg tracks hits avail0)
    ∧ (∀ s₁ s₂ : List TrackDistanceInfo,
        IsStdSortResult (fcRecords helixDist cfg avail0 tracks hits) s₁ →
        IsStdSortResult (fcRecords helixDist cfg avail0 tracks hits) s₂ →
        (∀ a ∈ fcRecords helixDist cfg avail0 tracks hits,
          ∀ b ∈ fcRecords helixDist cfg avail0 tracks hits,
            a.distanceToTrack = b.distanceToTrack → a = b) →
        s₁ = s₂ ∧ fcWalk s₁ ⟨avail0, []⟩ = fcWalk s₂ ⟨avail0, []⟩) := by
  constructor
  · exact ⟨(List.perm_insertionSort DistLE _).symm, List.sorted_insertionSort DistLE _⟩
  · rintro s₁ s₂ ⟨hp1, hs1⟩ ⟨hp2, hs2⟩ hinj
    have hperm : s₁.Perm s₂ := hp1.symm.trans hp2
    have hinj1 : ∀ a ∈ s₁, ∀ b ∈ s₁, a.distanceToTrack = b.distanceToTrack → a = b :=
      fun a ha b hb => hinj a (hp1.mem_iff.mpr ha) b (hp1.mem_iff.mpr hb)
    have heq := sorted_perm_unique s₁ s₂ hperm hs1 hs2 hinj1
    exact ⟨heq, by rw [heq]⟩

/-- Witness for C8 at a concrete input with pairwise distinct distances
(a single record). -/
theorem C8_sortDeterminism_witness :
    IsStdSortResult (fcRecords fcDistZero fcCfgW (fun _ => true) [fcTrackW1] [fcHitW])
      (fcSortedRecords fcDistZero fcCfgW [fcTrackW1] [fcHitW] (fun _ => true))
    ∧ ([⟨fcHitW, 1, 1, 0⟩] : List TrackDistanceInfo) = [⟨fcHitW, 1, 1, 0⟩]
    ∧ fcWalk [⟨fcHitW, 1, 1, 0⟩] ⟨fun _ => true, []⟩ =
        fcWalk [⟨fcHitW, 1, 1, 0⟩] ⟨fun _ => true, []⟩ :=
  ⟨(C8_sortDeterminism fcDistZero fcCfgW [fcTrackW1] [fcHitW] (fun _ => true)).1,
   ((C8_sortDeterminism fcDistZero fcCfgW [fcTrackW1] [fcHitW] (fun _ => true)).2
      [⟨fcHitW, 1, 1, 0⟩] [⟨fcHitW, 1, 1, 0⟩] ⟨by decide, by decide⟩
      ⟨by decide, by decide⟩ (by decide)).1,
   ((C8_sortDeterminism fcDistZero fcCfgW [fcTrackW1] [fcHitW] (fun _ => true)).2
      [⟨fcHitW, 1, 1, 0⟩] [⟨fcHitW, 1, 1, 0⟩] ⟨by decide, by decide⟩
      ⟨by decide, by decide⟩ (by decide)).2⟩

/-- Counterexample for C8 as stated: with two equal-distance records, the
reversed order is also a sorted permutation (an admissible `std::sort`
outcome), differs from the encounter-order tie-break, and yields a different
cluster membership. -/
theorem C8_sortStability_counterexample :
    IsStdSortResult fcRecsW fcAltW
    ∧ fcAltW ≠ fcSortedRecords fcDistZero fcCfgW [fcTrackW1, fcTrackW2] [fcHitW]
        (fun _ => true)
    ∧ (fcWalk fcAltW ⟨fun _ => true, []⟩).assigned ≠
        (fcWalk (fcSortedRecords fcDistZero fcCfgW [fcTrackW1, fcTrackW2] [fcHitW]
          (fun _ => true)) ⟨fun _ => true, []⟩).assigned := by
  exact ⟨⟨by decide, by decide⟩, by decide, by decide⟩

end RatReducible

end PandoraPFA
